import Mathlib

/-!
Verification of the orchestration core of the langgraph-101-js repository:
the message-reconciliation merge `addMessages`, the per-channel state
reducers, the node functions of the multi-agent and RAG graphs, and the
execution scheduler with its step budget and interrupt/resume protocol.

Pure functions of the TypeScript sources are embedded as Lean functions.
LLM calls, the retriever and the Chinook database are external capabilities
(spec §6) and are passed in as oracle functions.  The uuid generator used by
`addMessages` is made explicit as an injective supply `fresh : Nat → Nat` of
never-reused identities.  Parts of the engine that live in the langgraph
library rather than in the repository sources (the step loop, checkpointing
and resume) are modelled from the spec and marked as such.
-/

/-- Role discriminant of a message: the `{human, ai, tool, system}` variants
of `BaseMessage` (spec §3). -/
inductive Role where
  | human
  | ai
  | tool
  | system
  deriving DecidableEq, Repr

/-- A chat message as the reducers see it: a role, an optional identity and a
content string.  Identities (uuid strings in the source) are modelled as
natural numbers. -/
structure Message where
  role : Role
  id : Option Nat
  content : String
  deriving DecidableEq, Repr

/-- The ids of a message list, in order. -/
def idsOf (L : List Message) : List (Option Nat) :=
  L.map Message.id

/-- The id-assignment loops of `addMessages` (src/unnamed/part_001, lines
47-56): every message lacking an id receives a freshly generated one.
`fresh` stands for the uuid generator and the second argument is the index of
the next fresh id to draw; the updated index is returned so that the second
list continues from where the first stopped. -/
def assignIds (fresh : Nat → Nat) : List Message → Nat → List Message × Nat
  | [], n => ([], n)
  | m :: ms, n =>
    match m.id with
    | some _ =>
      let r := assignIds fresh ms n
      (m :: r.1, r.2)
    | none =>
      let r := assignIds fresh ms (n + 1)
      ({ m with id := some (fresh n) } :: r.1, r.2)

/-- Lookup in the `leftIdxById` index of `addMessages` (lines 58-61): the
source fills a record by a forward loop `leftCopy.forEach((m, i) => ...)`, so
a repeated id is mapped to its latest position.  The fold carries the value
recorded so far for the queried id together with the loop counter. -/
def leftIdxById (L : List Message) (i : Option Nat) : Option Nat :=
  (L.foldl (fun (p : Option Nat × Nat) m =>
    (if m.id = i then some p.2 else p.1, p.2 + 1)) (none, 0)).1

/-- The merge loop of `addMessages` (lines 63-71): start from the left list
and, for each incoming message in order, replace in place when its id occurs
in the index built from the left list, otherwise append at the tail. -/
def mergeInto (L R : List Message) : List Message :=
  R.foldl (fun merged m =>
    match leftIdxById L m.id with
    | some j => merged.set j m
    | none => merged ++ [m]) L

/-- `addMessages` (src/unnamed/part_001, lines 42-74), the message
reconciliation reducer of the supervisor state, with the uuid generator made
explicit. -/
def addMessages (fresh : Nat → Nat) (left right : List Message) : List Message :=
  let l := assignIds fresh left 0
  let r := assignIds fresh right l.2
  mergeInto l.1 r.1

/-- Position of an id inside a message list as the spec words it ("the
element at that position", §4.3 step 3), written independently of
`leftIdxById`: the last position holding the id, found by scanning the
reversed list. -/
def specPosOf (L : List Message) (i : Option Nat) : Option Nat :=
  (L.reverse.findIdx? (fun m => m.id == i)).map (fun k => L.length - 1 - k)

/-- The reconciliation merge as the specification describes it (§4.3 step 3):
process each incoming message in order; when its id occurs in the left list
replace the element at that id's position, otherwise append it at the end. -/
def specMerge (L : List Message) : List Message → List Message → List Message
  | merged, [] => merged
  | merged, m :: R =>
    match specPosOf L m.id with
    | some j => specMerge L (merged.set j m) R
    | none => specMerge L (merged ++ [m]) R

/-- The merge of two identity-carrying message lists, per the spec's words. -/
def addMessagesSpec (L R : List Message) : List Message :=
  specMerge L L R

/-! ### The semantics of the `leftIdxById` index -/

/-- Index of the last occurrence of a value in a list; this is the semantics
of the `leftIdxById` record (`leftIdxById_eq_lastIdxOf` below). -/
def lastIdxOf : List (Option Nat) → Option Nat → Option Nat
  | [], _ => none
  | x :: xs, i =>
    match lastIdxOf xs i with
    | some j => some (j + 1)
    | none => if x = i then some 0 else none

theorem leftIdxById_foldl (i : Option Nat) :
    ∀ (L : List Message) (acc : Option Nat) (n : Nat),
      (L.foldl (fun (p : Option Nat × Nat) m =>
        (if m.id = i then some p.2 else p.1, p.2 + 1)) (acc, n)).1
      = match lastIdxOf (idsOf L) i with
        | some j => some (n + j)
        | none => acc
  | [], acc, n => by simp [idsOf, lastIdxOf]
  | m :: L, acc, n => by
    have ih := leftIdxById_foldl i L (if m.id = i then some n else acc) (n + 1)
    simp only [List.foldl_cons] at ih ⊢
    rw [ih]
    simp only [idsOf, List.map_cons, lastIdxOf]
    cases h : lastIdxOf (L.map Message.id) i with
    | some j => simp [Nat.add_assoc, Nat.add_comm 1 j]
    | none => by_cases hm : m.id = i <;> simp [hm]

theorem leftIdxById_eq_lastIdxOf (L : List Message) (i : Option Nat) :
    leftIdxById L i = lastIdxOf (idsOf L) i := by
  unfold leftIdxById
  rw [leftIdxById_foldl i L none 0]
  cases h : lastIdxOf (idsOf L) i <;> simp

theorem lastIdxOf_eq_none_iff (i : Option Nat) :
    ∀ xs : List (Option Nat), lastIdxOf xs i = none ↔ i ∉ xs
  | [] => by simp [lastIdxOf]
  | x :: xs => by
    simp only [lastIdxOf, List.mem_cons]
    cases h : lastIdxOf xs i with
    | some j => simp [(lastIdxOf_eq_none_iff i xs).not_left.mp (by simp [h])]
    | none =>
      have hxs := (lastIdxOf_eq_none_iff i xs).mp h
      by_cases hx : x = i
      · subst hx
        simp [hxs]
      · simp [hx, hxs, Ne.symm hx]

theorem lastIdxOf_lt_length {i : Option Nat} :
    ∀ {xs : List (Option Nat)} {j : Nat}, lastIdxOf xs i = some j → j < xs.length
  | x :: xs, j, h => by
    simp only [lastIdxOf] at h
    cases h' : lastIdxOf xs i with
    | some j' =>
      rw [h'] at h
      cases h
      exact Nat.succ_lt_succ (lastIdxOf_lt_length h')
    | none =>
      rw [h'] at h
      by_cases hx : x = i <;> simp [hx] at h
      simp only [List.length_cons]
      omega

theorem lastIdxOf_getElem {i : Option Nat} :
    ∀ {xs : List (Option Nat)} {j : Nat}, lastIdxOf xs i = some j → xs[j]? = some i
  | x :: xs, j, h => by
    simp only [lastIdxOf] at h
    cases h' : lastIdxOf xs i with
    | some j' =>
      rw [h'] at h
      cases h
      simpa using lastIdxOf_getElem h'
    | none =>
      rw [h'] at h
      by_cases hx : x = i <;> simp [hx] at h
      simp [← h, hx]

theorem lastIdxOf_last {i : Option Nat} :
    ∀ {xs : List (Option Nat)} {j : Nat}, lastIdxOf xs i = some j →
      ∀ k, j < k → xs[k]? ≠ some i
  | x :: xs, j, h, k, hk => by
    simp only [lastIdxOf] at h
    cases h' : lastIdxOf xs i with
    | some j' =>
      rw [h'] at h
      cases h
      cases k with
      | zero => omega
      | succ k' =>
        simpa using lastIdxOf_last h' k' (Nat.lt_of_succ_lt_succ hk)
    | none =>
      rw [h'] at h
      by_cases hx : x = i <;> simp [hx] at h
      subst h
      have hmem := (lastIdxOf_eq_none_iff i xs).mp h'
      cases k with
      | zero => omega
      | succ k' =>
        simp only [List.getElem?_cons_succ]
        intro hc
        exact hmem (List.getElem?_mem hc)

theorem lastIdxOf_append (i : Option Nat) :
    ∀ xs ys : List (Option Nat),
      lastIdxOf (xs ++ ys) i
      = match lastIdxOf ys i with
        | some j => some (xs.length + j)
        | none => lastIdxOf xs i
  | [], ys => by
    cases h : lastIdxOf ys i <;> simp [h, lastIdxOf]
  | x :: xs, ys => by
    have ih := lastIdxOf_append i xs ys
    have hcons : lastIdxOf (x :: (xs ++ ys)) i
        = match lastIdxOf (xs ++ ys) i with
          | some j => some (j + 1)
          | none => if x = i then some 0 else none := rfl
    rw [List.cons_append, hcons, ih]
    cases h : lastIdxOf ys i with
    | some j =>
      simp only [Option.some.injEq, List.length_cons]
      omega
    | none => rfl

/-! ### Behaviour of the id-assignment pass -/

theorem assignIds_allSome (fresh : Nat → Nat) :
    ∀ (ms : List Message) (n : Nat), (∀ m ∈ ms, m.id ≠ none) →
      assignIds fresh ms n = (ms, n)
  | [], _, _ => rfl
  | m :: ms, n, h => by
    cases hid : m.id with
    | none => exact absurd hid (h m (by simp))
    | some v =>
      simp only [assignIds, hid]
      rw [assignIds_allSome fresh ms n (fun m' hm' => h m' (by simp [hm']))]

theorem assignIds_allNone (fresh : Nat → Nat) :
    ∀ (ms : List Message) (n : Nat), (∀ m ∈ ms, m.id = none) →
      (assignIds fresh ms n).1.map Message.content = ms.map Message.content
      ∧ (assignIds fresh ms n).1.map Message.role = ms.map Message.role
      ∧ idsOf (assignIds fresh ms n).1
          = (List.range' n ms.length).map (fun k => some (fresh k))
      ∧ (assignIds fresh ms n).2 = n + ms.length
  | [], n, _ => by simp [assignIds, idsOf]
  | m :: ms, n, h => by
    have ih := assignIds_allNone fresh ms (n + 1) (fun m' hm' => h m' (by simp [hm']))
    simp only [assignIds, h m (by simp)]
    refine ⟨?_, ?_, ?_, ?_⟩
    · simpa using ih.1
    · simpa using ih.2.1
    · simp only [idsOf, List.map_cons, List.length_cons, List.range'_succ, List.map_cons]
      exact congrArg (some (fresh n) :: ·) ih.2.2.1
    · simp only [List.length_cons]
      rw [ih.2.2.2]
      omega

/-! ### Decomposition of the merge loop -/

/-- The merge loop restricted to its in-place replacements. -/
def overwriteOnly (L acc R : List Message) : List Message :=
  R.foldl (fun acc m =>
    match leftIdxById L m.id with
    | some j => acc.set j m
    | none => acc) acc

/-- The messages of `R` whose id misses the index built from `L`; these are
the ones the merge loop appends at the tail. -/
def appendedOf (L R : List Message) : List Message :=
  R.filter (fun m => (leftIdxById L m.id).isNone)

theorem mergeInto_foldl_of_none (L : List Message) :
    ∀ (R acc : List Message), (∀ m ∈ R, leftIdxById L m.id = none) →
      R.foldl (fun merged m =>
        match leftIdxById L m.id with
        | some j => merged.set j m
        | none => merged ++ [m]) acc = acc ++ R
  | [], acc, _ => by simp
  | m :: R, acc, h => by
    simp only [List.foldl_cons, h m (by simp)]
    rw [mergeInto_foldl_of_none L R (acc ++ [m]) (fun m' hm' => h m' (by simp [hm']))]
    simp

/-- If no incoming id occurs in `L`, the merge is plain concatenation. -/
theorem mergeInto_of_disjoint (L R : List Message)
    (h : ∀ m ∈ R, leftIdxById L m.id = none) : mergeInto L R = L ++ R :=
  mergeInto_foldl_of_none L R L h

theorem leftIdxById_lt_length {L : List Message} {i : Option Nat} {j : Nat}
    (h : leftIdxById L i = some j) : j < L.length := by
  rw [leftIdxById_eq_lastIdxOf] at h
  simpa [idsOf] using lastIdxOf_lt_length h

theorem mergeInto_split_aux (L : List Message) :
    ∀ (R X Y : List Message), X.length = L.length →
      R.foldl (fun merged m =>
        match leftIdxById L m.id with
        | some j => merged.set j m
        | none => merged ++ [m]) (X ++ Y)
      = overwriteOnly L X R ++ (Y ++ appendedOf L R)
  | [], X, Y, _ => by simp [overwriteOnly, appendedOf]
  | m :: R, X, Y, hlen => by
    cases h : leftIdxById L m.id with
    | some j =>
      have hj : j < X.length := hlen ▸ leftIdxById_lt_length h
      have hset : (X ++ Y).set j m = X.set j m ++ Y := by
        rw [List.set_append, if_pos hj]
      simp only [List.foldl_cons, h, hset]
      rw [mergeInto_split_aux L R (X.set j m) Y (by simp [hlen])]
      simp [overwriteOnly, appendedOf, h]
    | none =>
      have hassoc : (X ++ Y) ++ [m] = X ++ (Y ++ [m]) := by simp
      simp only [List.foldl_cons, h, hassoc]
      rw [mergeInto_split_aux L R X (Y ++ [m]) hlen]
      simp [overwriteOnly, appendedOf, h]

/-- The merge is its overwriting part followed by its appended part. -/
theorem mergeInto_eq_split (L R : List Message) :
    mergeInto L R = overwriteOnly L L R ++ appendedOf L R := by
  have h := mergeInto_split_aux L R L [] rfl
  simpa [mergeInto] using h

theorem set_of_getElem_eq {α : Type _} :
    ∀ (l : List α) (j : Nat) (a : α), l[j]? = some a → l.set j a = l
  | [], _, _, h => by simp at h
  | x :: l, 0, a, h => by
    simp only [List.getElem?_cons_zero, Option.some.injEq] at h
    simp [h]
  | x :: l, j + 1, a, h => by
    simp only [List.getElem?_cons_succ] at h
    show x :: l.set j a = x :: l
    rw [set_of_getElem_eq l j a h]

theorem overwriteOnly_length (L : List Message) :
    ∀ (R acc : List Message), (overwriteOnly L acc R).length = acc.length
  | [], _ => rfl
  | m :: R, acc => by
    cases h : leftIdxById L m.id with
    | some j =>
      have hrec := overwriteOnly_length L R (acc.set j m)
      simp only [overwriteOnly, List.foldl_cons, h]
      simpa [overwriteOnly] using hrec
    | none =>
      have hrec := overwriteOnly_length L R acc
      simp only [overwriteOnly, List.foldl_cons, h]
      simpa [overwriteOnly] using hrec

theorem idsOf_overwriteOnly (L : List Message) :
    ∀ (R acc : List Message), idsOf acc = idsOf L →
      idsOf (overwriteOnly L acc R) = idsOf L
  | [], _, h => h
  | m :: R, acc, h => by
    cases hidx : leftIdxById L m.id with
    | some j =>
      have hget : (idsOf L)[j]? = some m.id :=
        lastIdxOf_getElem (leftIdxById_eq_lastIdxOf L m.id ▸ hidx)
      have hacc : idsOf (acc.set j m) = idsOf L := by
        show (acc.set j m).map Message.id = idsOf L
        rw [List.map_set]
        show (idsOf acc).set j m.id = idsOf L
        rw [h, set_of_getElem_eq _ j m.id hget]
      have hrec := idsOf_overwriteOnly L R (acc.set j m) hacc
      simp only [overwriteOnly, List.foldl_cons, hidx]
      simpa [overwriteOnly] using hrec
    | none =>
      have hrec := idsOf_overwriteOnly L R acc h
      simp only [overwriteOnly, List.foldl_cons, hidx]
      simpa [overwriteOnly] using hrec

theorem overwriteOnly_getElem (L : List Message) :
    ∀ (R acc : List Message), acc.length = L.length → ∀ p : Nat,
      (overwriteOnly L acc R)[p]?
      = match R.reverse.find? (fun m => leftIdxById L m.id == some p) with
        | some mw => some mw
        | none => acc[p]?
  | [], acc, _, p => by simp [overwriteOnly]
  | m :: R, acc, hlen, p => by
    have hrev : ((m :: R).reverse.find? (fun m' => leftIdxById L m'.id == some p))
        = (R.reverse.find? (fun m' => leftIdxById L m'.id == some p)).or
            ([m].find? (fun m' => leftIdxById L m'.id == some p)) := by
      rw [List.reverse_cons, List.find?_append]
    rw [hrev]
    cases hidx : leftIdxById L m.id with
    | some j =>
      have hj : j < acc.length := hlen ▸ leftIdxById_lt_length hidx
      have ih := overwriteOnly_getElem L R (acc.set j m) (by simp [hlen]) p
      have hstep : overwriteOnly L acc (m :: R) = overwriteOnly L (acc.set j m) R := by
        simp [overwriteOnly, hidx]
      rw [hstep, ih]
      cases hfind : R.reverse.find? (fun m' => leftIdxById L m'.id == some p) with
      | some mw => rfl
      | none =>
        show (acc.set j m)[p]?
          = match Option.or none ([m].find? fun m' => leftIdxById L m'.id == some p) with
            | some mw => some mw
            | none => acc[p]?
        rw [Option.none_or]
        by_cases hp : j = p
        · subst hp
          have : [m].find? (fun m' => leftIdxById L m'.id == some j) = some m := by
            simp [List.find?_cons, hidx]
          rw [this, List.getElem?_set]
          simp [hj]
        · have : [m].find? (fun m' => leftIdxById L m'.id == some p) = none := by
            simp [List.find?_cons, hidx, hp]
          rw [this, List.getElem?_set, if_neg hp]
    | none =>
      have ih := overwriteOnly_getElem L R acc hlen p
      have hstep : overwriteOnly L acc (m :: R) = overwriteOnly L acc R := by
        simp [overwriteOnly, hidx]
      have hm : [m].find? (fun m' => leftIdxById L m'.id == some p) = none := by
        simp [List.find?_cons, hidx]
      rw [hstep, ih, hm]
      cases hfind : R.reverse.find? (fun m' => leftIdxById L m'.id == some p) <;> rfl

theorem find?_congr_on {α : Type _} (p q : α → Bool) :
    ∀ l : List α, (∀ x ∈ l, p x = q x) → l.find? p = l.find? q
  | [], _ => rfl
  | x :: l, h => by
    have ih := find?_congr_on p q l (fun y hy => h y (by simp [hy]))
    simp only [List.find?_cons, h x (by simp), ih]

theorem find?_filter_of_imp {α : Type _} (p P : α → Bool) :
    ∀ l : List α, (∀ x ∈ l, p x = true → P x = true) →
      (l.filter P).find? p = l.find? p
  | [], _ => rfl
  | x :: l, h => by
    have ih := find?_filter_of_imp p P l (fun y hy => h y (by simp [hy]))
    by_cases hP : P x = true
    · simp only [List.filter_cons, if_pos hP, List.find?_cons, ih]
    · have hp : p x = false := by
        cases hpx : p x
        · rfl
        · exact absurd (h x (by simp) hpx) hP
      simp only [List.filter_cons, if_neg hP, List.find?_cons, hp, ih]

theorem find?_reverse_of_lastIdxOf :
    ∀ (A : List Message) (i : Option Nat) (q : Nat),
      lastIdxOf (idsOf A) i = some q →
      A.reverse.find? (fun m => m.id == i) = A[q]?
  | m :: A, i, q, h => by
    have hrev : ((m :: A).reverse.find? (fun m' => m'.id == i))
        = (A.reverse.find? (fun m' => m'.id == i)).or
            ([m].find? (fun m' => m'.id == i)) := by
      rw [List.reverse_cons, List.find?_append]
    rw [hrev]
    simp only [idsOf, List.map_cons, lastIdxOf] at h
    cases h' : lastIdxOf (A.map Message.id) i with
    | some j =>
      rw [h'] at h
      injection h with h
      subst h
      have ih := find?_reverse_of_lastIdxOf A i j (by simpa [idsOf] using h')
      have hj : j < A.length := by
        have := lastIdxOf_lt_length h'
        simpa using this
      obtain ⟨a, ha⟩ : ∃ a, A[j]? = some a := by
        rw [List.getElem?_eq_getElem hj]
        exact ⟨_, rfl⟩
      rw [ih, ha]
      show some a = (m :: A)[j + 1]?
      rw [List.getElem?_cons_succ, ha]
    | none =>
      rw [h'] at h
      by_cases hx : m.id = i
      · rw [if_pos hx] at h
        injection h with h
        subst h
        have hnomem : i ∉ A.map Message.id := (lastIdxOf_eq_none_iff i _).mp h'
        have hnone : A.reverse.find? (fun m' => m'.id == i) = none := by
          rw [List.find?_eq_none]
          intro x hxmem
          simp only [beq_iff_eq]
          intro hxi
          exact hnomem (by
            rw [List.mem_map]
            exact ⟨x, by simpa using hxmem, hxi⟩)
        rw [hnone, Option.none_or]
        simp [List.find?_cons, hx]
      · rw [if_neg hx] at h
        simp at h

/-! ### Idempotence of the merge -/

theorem leftIdxById_eq_none_iff (L : List Message) (i : Option Nat) :
    leftIdxById L i = none ↔ i ∉ idsOf L := by
  rw [leftIdxById_eq_lastIdxOf]
  exact lastIdxOf_eq_none_iff i (idsOf L)

theorem leftIdxById_getElem {L : List Message} {i : Option Nat} {j : Nat}
    (h : leftIdxById L i = some j) : (idsOf L)[j]? = some i := by
  rw [leftIdxById_eq_lastIdxOf] at h
  exact lastIdxOf_getElem h

theorem appendedOf_mem (L R : List Message) (m : Message) :
    m ∈ appendedOf L R ↔ m ∈ R ∧ leftIdxById L m.id = none := by
  simp [appendedOf, List.mem_filter, Option.isNone_iff_eq_none]

theorem idsOf_append (X Y : List Message) : idsOf (X ++ Y) = idsOf X ++ idsOf Y := by
  simp [idsOf]

theorem mergeInto_ids (L R : List Message) :
    idsOf (mergeInto L R) = idsOf L ++ idsOf (appendedOf L R) := by
  rw [mergeInto_eq_split, idsOf_append, idsOf_overwriteOnly L R L rfl]

theorem pred_congr_of_lookup (L' : List Message) (i : Option Nat) (p : Nat)
    (hp : leftIdxById L' i = some p) (m' : Message) :
    (leftIdxById L' m'.id == some p) = (m'.id == i) := by
  by_cases hmi : m'.id = i
  · simp [hmi, hp]
  · cases hl : leftIdxById L' m'.id with
    | none => simp [hmi]
    | some j =>
      by_cases hjp : j = p
      · exfalso
        subst hjp
        have h1 := leftIdxById_getElem hl
        have h2 := leftIdxById_getElem hp
        rw [h1] at h2
        injection h2 with h2
        exact hmi h2
      · simp [hmi, hjp]

theorem mergeInto_find_getElem (L R : List Message) (p : Nat) (mw : Message)
    (hfind : R.reverse.find? (fun m => leftIdxById (mergeInto L R) m.id == some p)
      = some mw) :
    (mergeInto L R)[p]? = some mw := by
  have hMi : leftIdxById (mergeInto L R) mw.id = some p := by
    have := List.find?_some hfind
    simpa using this
  have hfind_i : R.reverse.find? (fun m' => m'.id == mw.id) = some mw := by
    rw [find?_congr_on (fun m' => leftIdxById (mergeInto L R) m'.id == some p)
      (fun m' => m'.id == mw.id) R.reverse
      (fun m' _ => pred_congr_of_lookup (mergeInto L R) mw.id p hMi m')] at hfind
    exact hfind
  have hsplit := mergeInto_eq_split L R
  have hlenOW : (overwriteOnly L L R).length = L.length := overwriteOnly_length L R L
  have hidsM : idsOf (mergeInto L R) = idsOf L ++ idsOf (appendedOf L R) :=
    mergeInto_ids L R
  cases hLi : leftIdxById L mw.id with
  | some j =>
    have hnotA : mw.id ∉ idsOf (appendedOf L R) := by
      intro hmem
      obtain ⟨a, haA, hai⟩ := List.mem_map.mp hmem
      have hno := ((appendedOf_mem L R a).mp haA).2
      rw [hai, hLi] at hno
      exact Option.noConfusion hno
    have hlastA : lastIdxOf (idsOf (appendedOf L R)) mw.id = none :=
      (lastIdxOf_eq_none_iff _ _).mpr hnotA
    have hMj : leftIdxById (mergeInto L R) mw.id = leftIdxById L mw.id := by
      rw [leftIdxById_eq_lastIdxOf, hidsM, lastIdxOf_append]
      simp only [hlastA]
      rw [← leftIdxById_eq_lastIdxOf]
    have hpj : p = j := by
      rw [hMi, hLi] at hMj
      injection hMj
    subst hpj
    have hjL : p < L.length := leftIdxById_lt_length hLi
    have howfind : R.reverse.find? (fun m' => leftIdxById L m'.id == some p) = some mw := by
      rw [find?_congr_on (fun m' => leftIdxById L m'.id == some p)
        (fun m' => m'.id == mw.id) R.reverse
        (fun m' _ => pred_congr_of_lookup L mw.id p hLi m')]
      exact hfind_i
    rw [hsplit, List.getElem?_append, if_pos (hlenOW ▸ hjL),
      overwriteOnly_getElem L R L rfl p, howfind]
  | none =>
    obtain ⟨q, hq⟩ : ∃ q, lastIdxOf (idsOf (appendedOf L R)) mw.id = some q := by
      cases hq : lastIdxOf (idsOf (appendedOf L R)) mw.id with
      | some q => exact ⟨q, rfl⟩
      | none =>
        exfalso
        have hnone : leftIdxById (mergeInto L R) mw.id = none := by
          rw [leftIdxById_eq_lastIdxOf, hidsM, lastIdxOf_append]
          simp only [hq]
          rw [← leftIdxById_eq_lastIdxOf]
          exact hLi
        rw [hnone] at hMi
        exact Option.noConfusion hMi
    have hplen : p = L.length + q := by
      have hsome : leftIdxById (mergeInto L R) mw.id = some ((idsOf L).length + q) := by
        rw [leftIdxById_eq_lastIdxOf, hidsM, lastIdxOf_append]
        simp only [hq]
      rw [hMi] at hsome
      have hlen : (idsOf L).length = L.length := by simp [idsOf]
      injection hsome with hsome
      omega
    have himp : ∀ x ∈ R.reverse, (x.id == mw.id) = true →
        ((leftIdxById L x.id).isNone) = true := by
      intro x _ hx
      have hxi : x.id = mw.id := by simpa using hx
      rw [hxi, hLi]
      rfl
    have hAfind : (appendedOf L R).reverse.find? (fun m' => m'.id == mw.id) = some mw := by
      have hAfilter : (appendedOf L R).reverse
          = R.reverse.filter (fun m => (leftIdxById L m.id).isNone) := by
        rw [appendedOf, ← List.filter_reverse]
      rw [hAfilter, find?_filter_of_imp _ _ R.reverse himp]
      exact hfind_i
    have hAq : (appendedOf L R)[q]? = some mw := by
      rw [← find?_reverse_of_lastIdxOf (appendedOf L R) mw.id q hq]
      exact hAfind
    have hge : ¬ p < (overwriteOnly L L R).length := by
      rw [hlenOW]
      omega
    rw [hsplit, List.getElem?_append, if_neg hge, hlenOW, hplen]
    simpa using hAq

/-- Replaying the incoming batch is a no-op: the merge loop is idempotent. -/
theorem mergeInto_idem (L R : List Message) :
    mergeInto (mergeInto L R) R = mergeInto L R := by
  have hpres : ∀ m ∈ R, ¬ (leftIdxById (mergeInto L R) m.id).isNone = true := by
    intro m hm
    rw [Option.isNone_iff_eq_none, leftIdxById_eq_none_iff, mergeInto_ids]
    simp only [List.mem_append, not_not]
    cases hLi : leftIdxById L m.id with
    | some j =>
      exact Or.inl (List.getElem?_mem (leftIdxById_getElem hLi))
    | none =>
      refine Or.inr ?_
      exact List.mem_map.mpr ⟨m, (appendedOf_mem L R m).mpr ⟨hm, hLi⟩, rfl⟩
  have happ : appendedOf (mergeInto L R) R = [] := by
    rw [appendedOf, List.filter_eq_nil_iff]
    exact hpres
  have hsplit : mergeInto (mergeInto L R) R
      = overwriteOnly (mergeInto L R) (mergeInto L R) R := by
    rw [mergeInto_eq_split, happ, List.append_nil]
  rw [hsplit]
  apply List.ext_getElem?
  intro p
  rw [overwriteOnly_getElem (mergeInto L R) R (mergeInto L R) rfl p]
  cases hfind : R.reverse.find?
      (fun m => leftIdxById (mergeInto L R) m.id == some p) with
  | none => rfl
  | some mw => exact (mergeInto_find_getElem L R p mw hfind).symm

/-! ### The spec-worded merge agrees with the implementation -/

theorem specPosOf_eq_leftIdxById (i : Option Nat) (L : List Message) :
    specPosOf L i = leftIdxById L i := by
  rw [leftIdxById_eq_lastIdxOf]
  unfold specPosOf
  induction L using List.reverseRecOn with
  | nil => rfl
  | append_singleton L a ih =>
    rw [List.reverse_append]
    simp only [List.reverse_cons, List.reverse_nil, List.nil_append, List.singleton_append]
    rw [List.findIdx?_cons]
    by_cases ha : a.id = i
    · rw [if_pos (by simpa using ha)]
      have hone : lastIdxOf (idsOf (L ++ [a])) i = some L.length := by
        have : idsOf (L ++ [a]) = idsOf L ++ [a.id] := idsOf_append L [a]
        rw [this, lastIdxOf_append]
        have : lastIdxOf [a.id] i = some 0 := by
          simp [lastIdxOf, ha]
        rw [this]
        simp [idsOf]
      rw [hone]
      simp
    · rw [if_neg (by simpa using ha), List.findIdx?_succ]
      have htwo : lastIdxOf (idsOf (L ++ [a])) i = lastIdxOf (idsOf L) i := by
        have h3 : idsOf (L ++ [a]) = idsOf L ++ [a.id] := idsOf_append L [a]
        rw [h3, lastIdxOf_append]
        have h4 : lastIdxOf [a.id] i = none := by
          simp [lastIdxOf, ha]
        rw [h4]
      rw [htwo, ← ih, Option.map_map]
      cases hf : L.reverse.findIdx? (fun m => m.id == i) with
      | none => rfl
      | some k =>
        show some ((L ++ [a]).length - 1 - (k + 1)) = some (L.length - 1 - k)
        simp only [List.length_append, List.length_cons, List.length_nil]
        congr 1
        omega

theorem specMerge_eq_foldl (L : List Message) :
    ∀ (R acc : List Message),
      specMerge L acc R
      = R.foldl (fun merged m =>
          match leftIdxById L m.id with
          | some j => merged.set j m
          | none => merged ++ [m]) acc
  | [], _ => rfl
  | m :: R, acc => by
    cases h : leftIdxById L m.id with
    | some j =>
      simp only [specMerge, specPosOf_eq_leftIdxById, h, List.foldl_cons]
      exact specMerge_eq_foldl L R (acc.set j m)
    | none =>
      simp only [specMerge, specPosOf_eq_leftIdxById, h, List.foldl_cons]
      exact specMerge_eq_foldl L R (acc ++ [m])

theorem addMessagesSpec_eq_mergeInto (L R : List Message) :
    addMessagesSpec L R = mergeInto L R := by
  rw [addMessagesSpec, specMerge_eq_foldl]
  rfl

/-- When every message already carries an id, the uuid pass is the identity
and `addMessages` is exactly the merge loop. -/
theorem addMessages_of_allSome (fresh : Nat → Nat) (L R : List Message)
    (hL : ∀ m ∈ L, m.id ≠ none) (hR : ∀ m ∈ R, m.id ≠ none) :
    addMessages fresh L R = mergeInto L R := by
  have h1 := assignIds_allSome fresh L 0 hL
  have h2 := assignIds_allSome fresh R 0 hR
  simp [addMessages, h1, h2]

/-- When no message carries an id, the uuid pass relabels everything with
distinct fresh ids and the merge degenerates to concatenation. -/
theorem addMessages_of_allNone (fresh : Nat → Nat) (L R : List Message)
    (hfresh : Function.Injective fresh)
    (hL : ∀ m ∈ L, m.id = none) (hR : ∀ m ∈ R, m.id = none) :
    addMessages fresh L R
      = (assignIds fresh L 0).1 ++ (assignIds fresh R L.length).1 := by
  have hLn := assignIds_allNone fresh L 0 hL
  have hRn := assignIds_allNone fresh R L.length hR
  have h2 : (assignIds fresh L 0).2 = L.length := by
    rw [hLn.2.2.2]
    omega
  have hdisj : ∀ m ∈ (assignIds fresh R L.length).1,
      leftIdxById (assignIds fresh L 0).1 m.id = none := by
    intro m hm
    rw [leftIdxById_eq_none_iff, hLn.2.2.1]
    intro hmem
    obtain ⟨k, hk, hkeq⟩ := List.mem_map.mp hmem
    have hmid : m.id ∈ idsOf (assignIds fresh R L.length).1 :=
      List.mem_map_of_mem Message.id hm
    rw [hRn.2.2.1] at hmid
    obtain ⟨k', hk', hkeq'⟩ := List.mem_map.mp hmid
    rw [← hkeq'] at hkeq
    have hkk : k = k' := hfresh (Option.some.inj hkeq)
    have hklt : k < 0 + L.length := (List.mem_range'_1.mp hk).2
    have hkge : L.length ≤ k' := (List.mem_range'_1.mp hk').1
    omega
  have hmain : addMessages fresh L R
      = mergeInto (assignIds fresh L 0).1 (assignIds fresh R L.length).1 := by
    simp only [addMessages, h2]
  rw [hmain, mergeInto_of_disjoint _ _ hdisj]

/-! ### State channels and reducers -/

/-- The `messages` reducer of the hil-assistant `State`
(src/multi-agent/hil-assistant.ts, lines 48-51):
`(currentState, updateValue) => [...(currentState || []), ...updateValue]`.
The `|| []` null-guard is modelled by an optional current value. -/
def hilMessagesReducer (currentState : Option (List Message))
    (updateValue : List Message) : List Message :=
  currentState.getD [] ++ updateValue

/-- The `customer_id` reducer of the hil-assistant `State` (lines 52-55):
`(currentState, updateValue) => updateValue`. -/
def hilCustomerIdReducer (currentState updateValue : Option String) : Option String :=
  updateValue

/-- The `loaded_memory` reducer of the hil-assistant `State` (lines 56-59). -/
def hilLoadedMemoryReducer (currentState updateValue : Option String) : Option String :=
  updateValue

/-- The `remaining_steps` reducer of the hil-assistant `State` (lines 60-63). -/
def hilRemainingStepsReducer (currentState updateValue : Option Nat) : Option Nat :=
  updateValue

/-- The `messages` reducer of `MusicAgentState`
(src/multi-agent/music-subagent.ts, lines 37-40). -/
def musicMessagesReducer (currentState : Option (List Message))
    (updateValue : List Message) : List Message :=
  currentState.getD [] ++ updateValue

/-- The `customer_id` reducer of `MusicAgentState` (lines 41-44). -/
def musicCustomerIdReducer (currentState updateValue : Option String) : Option String :=
  updateValue

/-- The `loaded_memory` reducer of `MusicAgentState` (lines 45-48). -/
def musicLoadedMemoryReducer (currentState updateValue : Option String) : Option String :=
  updateValue

/-- The hil-assistant graph state (src/multi-agent/hil-assistant.ts, lines
47-64): channels `messages`, `customer_id`, `loaded_memory`,
`remaining_steps`; `string | null` becomes `Option String`. -/
structure HILState where
  messages : List Message
  customer_id : Option String
  loaded_memory : Option String
  remaining_steps : Option Nat
  deriving DecidableEq, Repr

/-- A partial update of the hil-assistant state, as returned by a node: a
channel absent from the update (`none`) receives no incoming value. -/
structure HILUpdate where
  messages : Option (List Message) := none
  customer_id : Option (Option String) := none
  loaded_memory : Option (Option String) := none
  remaining_steps : Option (Option Nat) := none
  deriving DecidableEq, Repr

/-- Merge of a partial update into the hil-assistant state: each channel
present in the update goes through that channel's reducer; a channel with no
incoming update is left unchanged (spec §4.2). -/
def applyHIL (s : HILState) (u : HILUpdate) : HILState where
  messages := match u.messages with
    | some v => hilMessagesReducer (some s.messages) v
    | none => s.messages
  customer_id := match u.customer_id with
    | some v => hilCustomerIdReducer s.customer_id v
    | none => s.customer_id
  loaded_memory := match u.loaded_memory with
    | some v => hilLoadedMemoryReducer s.loaded_memory v
    | none => s.loaded_memory
  remaining_steps := match u.remaining_steps with
    | some v => hilRemainingStepsReducer s.remaining_steps v
    | none => s.remaining_steps

/-! ### The verification nodes of the hil-assistant graph -/

/-- `getCustomerIdFromIdentifier` (src/multi-agent/hil-assistant.ts, lines
95-114).  The Chinook database is the oracle `db`, mapping an SQL query text
to its result rows (their `CustomerId` values); the second component collects
the queries actually issued, so "no lookup performed" is this list being
empty.  String scrutinies run on the identifier's character sequence: the
regex test `^\d+$` is a non-empty all-digits check, `startsWith('+')`
inspects the first character, `includes('@')` is membership. -/
def getCustomerIdFromIdentifier (db : String → Option (List Nat))
    (identifier : String) : Option String × List String :=
  if !identifier.data.isEmpty && identifier.data.all Char.isDigit then
    (some identifier, [])
  else if identifier.data.head? == some '+' then
    let q := "SELECT CustomerId FROM Customer WHERE Phone = '" ++ identifier ++ "';"
    match db q with
    | some (r :: _) => (some (toString r), [q])
    | _ => (none, [q])
  else if identifier.data.contains '@' then
    let q := "SELECT CustomerId FROM Customer WHERE Email = '" ++ identifier ++ "';"
    match db q with
    | some (r :: _) => (some (toString r), [q])
    | _ => (none, [q])
  else
    (none, [])

/-- The LLM capabilities `verifyInfo` consumes: the structured identifier
extraction (whose failure takes the catch branch) and the plain
conversational response, plus the database. -/
structure VerifyOracles where
  parseIdentifier : Option Message → Except Unit String
  respond : List Message → Message
  db : String → Option (List Nat)

/-- `verifyInfo` (src/multi-agent/hil-assistant.ts, lines 117-167).  With a
verified `customer_id` the node returns the empty update; otherwise it
extracts an identifier from the last message, resolves it through
`getCustomerIdFromIdentifier`, and either records the verified id plus a
confirmation message, or answers with the ask/revise LLM response.  A falsy
(empty) extracted identifier skips resolution, as in the source. -/
def verifyInfo (o : VerifyOracles) (s : HILState) : HILUpdate :=
  match s.customer_id with
  | none =>
    let userInput := s.messages.getLast?
    match o.parseIdentifier userInput with
    | .error _ => { messages := some [o.respond s.messages] }
    | .ok identifier =>
      let customerId := if identifier.isEmpty then none
        else (getCustomerIdFromIdentifier o.db identifier).1
      match customerId with
      | some cid =>
        { customer_id := some (some cid)
          messages := some [⟨Role.system, none,
            "Thank you for providing your information! I was able to verify your account with customer id "
              ++ cid ++ "."⟩] }
      | none => { messages := some [o.respond s.messages] }
  | some _ => {}

/-- The `interrupt` payload of `humanInput` (line 172). -/
def humanInputPrompt : String :=
  "Please provide your customer information (ID, email, or phone number)."

/-- `shouldInterrupt` (src/multi-agent/hil-assistant.ts, lines 177-183). -/
def shouldInterrupt (s : HILState) : String :=
  if s.customer_id ≠ none then "continue" else "interrupt"

/-! ### The long-term memory nodes (src/unnamed/part_001) -/

/-- `UserProfile` (src/unnamed/part_001, lines 175-178). -/
structure UserProfile where
  customer_id : String
  music_preferences : List String
  deriving DecidableEq, Repr

/-- The long-term memory store (`InMemoryStore`): a namespaced key-value
mapping; `store.get(namespace, key)` is function application (spec §4.7). -/
def MemStore : Type := List String → String → Option UserProfile

/-- `store.put(namespace, key, value)`: idempotent overwrite (spec §4.7). -/
def memPut (store : MemStore) (ns : List String) (key : String)
    (v : UserProfile) : MemStore :=
  fun ns' key' => if ns' = ns ∧ key' = key then some v else store ns' key'

/-- `formatUserMemory` (src/unnamed/part_001, lines 181-187). -/
def formatUserMemory : Option UserProfile → String
  | none => ""
  | some userProfile =>
    if userProfile.music_preferences.length > 0 then
      "Music Preferences: " ++ String.intercalate ", " userProfile.music_preferences
    else ""

/-- `loadMemory` (src/unnamed/part_001, lines 190-204): an unset customer id
yields `{loaded_memory: ''}`; otherwise the profile stored under
`[customer_id, "memory_profile"] / "user_memory"` (absent profiles included)
is formatted onto the `loaded_memory` channel. -/
def loadMemory (store : MemStore) (s : HILState) : HILUpdate :=
  match s.customer_id with
  | none => { loaded_memory := some (some "") }
  | some userId =>
    let existingMemory := store [userId, "memory_profile"] "user_memory"
    let formatted := formatUserMemory existingMemory
    { loaded_memory := some (some formatted) }

/-- `createMemoryPrompt` (src/unnamed/part_001, lines 213-242). -/
def createMemoryPrompt : String :=
  "\nYou are an expert analyst that is observing a conversation that has taken place between a customer and a customer support assistant. The customer support assistant works for a digital music store, and has utilized a multi-agent team to answer the customer's request. \nYou are tasked with analyzing the conversation that has taken place between the customer and the customer support assistant, and updating the memory profile associated with the customer. The memory profile may be empty. If it's empty, you should create a new memory profile for the customer.\n\nYou specifically care about saving any music interest the customer has shared about themselves, particularly their music preferences to their memory profile.\n\nTo help you with this task, I have attached the conversation that has taken place between the customer and the customer support assistant below, as well as the existing memory profile associated with the customer that you should either update or create. \n\nThe customer's memory profile should have the following fields:\n- customer_id: the customer ID of the customer\n- music_preferences: the music preferences of the customer\n\nThese are the fields you should keep track of and update in the memory profile. If there has been no new information shared by the customer, you should not update the memory profile. It is completely okay if you do not have new information to update the memory profile with. In that case, just leave the values as they are.\n\n*IMPORTANT INFORMATION BELOW*\n\nThe conversation between the customer and the customer support assistant that you should analyze is as follows:\n{conversation}\n\nThe existing memory profile associated with the customer that you should either update or create based on the conversation is as follows:\n{memory_profile}\n\nEnsure your response is an object that has the following fields:\n- customer_id: the customer ID of the customer\n- music_preferences: the music preferences of the customer\n\nFor each key in the object, if there is no new information, do not update the value, just keep the value that is already there. If there is new information, update the value. \n\nTake a deep breath and think carefully before responding.\n"

/-- The `m.constructor.name` labels of the langchain message classes. -/
def roleLabel : Role → String
  | .human => "HumanMessage"
  | .ai => "AIMessage"
  | .tool => "ToolMessage"
  | .system => "SystemMessage"

/-- The conversation string built by `createOrUpdateMemory` (lines 260-262):
`messages.map(m => constructorName + ": " + content).join('\n')`. -/
def conversationOf (messages : List Message) : String :=
  String.intercalate "\n" (messages.map (fun m => roleLabel m.role ++ ": " ++ m.content))

/-- `createOrUpdateMemory` (src/unnamed/part_001, lines 245-277): reads the
prior profile (an absent profile formats as the empty string), substitutes
conversation and prior profile into `createMemoryPrompt`, asks the structured
LLM oracle `profileLLM` for the updated profile, stores it under the same
namespace and key, and reports its formatting on `loaded_memory`.  Returns
the updated store together with the node's update. -/
def createOrUpdateMemory (profileLLM : String → UserProfile) (store : MemStore)
    (s : HILState) : MemStore × HILUpdate :=
  match s.customer_id with
  | none => (store, {})
  | some userId =>
    let ns := [userId, "memory_profile"]
    let existingProfile := store ns "user_memory"
    let formattedMemory := formatUserMemory existingProfile
    let conversation := conversationOf s.messages
    let systemPrompt := (createMemoryPrompt.replace "{conversation}" conversation).replace
      "{memory_profile}" formattedMemory
    let updatedProfile := profileLLM systemPrompt
    (memPut store ns "user_memory" updatedProfile,
      { loaded_memory := some (some (formatUserMemory (some updatedProfile))) })

/-! ### The RAG graphs -/

/-- A retrieved document; only `pageContent` is consumed by the graphs. -/
structure Document where
  pageContent : String
  deriving DecidableEq, Repr

/-- The simple-rag graph state (src/rag-agents/simple-rag.ts, lines 25-38):
channels `question`, `generation` and `documents`, each with an overwrite
reducer `(currentState, updateValue) => updateValue`. -/
structure SimpleRAGState where
  question : String
  generation : String
  documents : List Document
  deriving DecidableEq, Repr

/-- A partial update of the simple-rag state. -/
structure SimpleRAGUpdate where
  question : Option String := none
  generation : Option String := none
  documents : Option (List Document) := none
  deriving DecidableEq, Repr

/-- Merge of a partial update into the simple-rag state (all three channels
overwrite; an absent channel is left unchanged, spec §4.2). -/
def applySimpleRAG (s : SimpleRAGState) (u : SimpleRAGUpdate) : SimpleRAGState where
  question := match u.question with
    | some v => v
    | none => s.question
  generation := match u.generation with
    | some v => v
    | none => s.generation
  documents := match u.documents with
    | some v => v
    | none => s.documents

/-- `retrieveDocuments` (src/rag-agents/simple-rag.ts, lines 68-74): apply
the retriever oracle to the question and return the result on the
`documents` channel only. -/
def retrieveDocuments (retriever : String → List Document) (s : SimpleRAGState) :
    SimpleRAGUpdate :=
  { documents := some (retriever s.question) }

/-- The corrective-rag graph state (src/unnamed/part_003, lines 27-44):
`question`, `generation`, `documents`, `attempted_generations`, all with
overwrite reducers. -/
structure CRAGState where
  question : String
  generation : String
  documents : List Document
  attempted_generations : Nat
  deriving DecidableEq, Repr

/-- A partial update of the corrective-rag state. -/
structure CRAGUpdate where
  question : Option String := none
  generation : Option String := none
  documents : Option (List Document) := none
  attempted_generations : Option Nat := none
  deriving DecidableEq, Repr

/-- Merge of a partial update into the corrective-rag state. -/
def applyCRAG (s : CRAGState) (u : CRAGUpdate) : CRAGState where
  question := match u.question with
    | some v => v
    | none => s.question
  generation := match u.generation with
    | some v => v
    | none => s.generation
  documents := match u.documents with
    | some v => v
    | none => s.documents
  attempted_generations := match u.attempted_generations with
    | some v => v
    | none => s.attempted_generations

/-- `RAG_PROMPT` (src/unnamed/part_003, lines 48-55). -/
def RAG_PROMPT : String :=
  "You are an assistant for question-answering tasks. \nUse the following pieces of retrieved context to answer the question. \nIf you don't know the answer, just say that you don't know. \nUse three sentences maximum and keep the answer concise.\n\nQuestion: {question} \nContext: {context} \nAnswer:"

/-- `documents.map(doc => doc.pageContent).join('\n\n')`. -/
def formatDocs (documents : List Document) : String :=
  String.intercalate "\n\n" (documents.map Document.pageContent)

/-- `retrieveDocuments` of corrective-rag (src/unnamed/part_003). -/
def cragRetrieveDocuments (retriever : String → List Document) (s : CRAGState) :
    CRAGUpdate :=
  { documents := some (retriever s.question) }

/-- `generateResponse` of corrective-rag (src/unnamed/part_003): format the
RAG prompt, invoke the LLM oracle, and return the generation together with
`attempted_generations + 1` (the `|| 0` guard is the identity on `Nat`). -/
def cragGenerateResponse (genLLM : String → String) (s : CRAGState) : CRAGUpdate :=
  let attemptedGenerations := s.attempted_generations
  let formattedDocs := formatDocs s.documents
  let ragPromptFormatted :=
    (RAG_PROMPT.replace "{context}" formattedDocs).replace "{question}" s.question
  { generation := some (genLLM ragPromptFormatted)
    attempted_generations := some (attemptedGenerations + 1) }

/-- `gradeDocumentsPrompt` (src/unnamed/part_003). -/
def gradeDocumentsPrompt : String :=
  "Here is the retrieved document: \n\n {document} \n\n Here is the user question: \n\n {question}"

/-- `gradeDocuments` of corrective-rag: keep exactly the documents the grader
LLM oracle marks relevant. -/
def cragGradeDocuments (gradeDoc : String → Bool) (s : CRAGState) : CRAGUpdate :=
  { documents := some (s.documents.filter (fun doc =>
      gradeDoc ((gradeDocumentsPrompt.replace "{document}" doc.pageContent).replace
        "{question}" s.question))) }

/-- `decideToGenerate` (src/unnamed/part_003): the conditional edge after
document grading. -/
def decideToGenerate (s : CRAGState) : String :=
  if s.documents.length = 0 then "none relevant" else "some relevant"

/-- `ATTEMPTED_GENERATION_MAX` (src/unnamed/part_003, line 189). -/
def ATTEMPTED_GENERATION_MAX : Nat := 3

/-- `gradeHallucinationsPrompt` (src/unnamed/part_003). -/
def gradeHallucinationsPrompt : String :=
  "Set of facts: \n\n {documents} \n\n LLM generation: {generation}"

/-- `gradeHallucinations` (src/unnamed/part_003, lines 195-235): returns the
routing label, or throws (`Except.error`) once `attempted_generations` has
reached `ATTEMPTED_GENERATION_MAX` while the generation is ungrounded.  The
grader LLM is the Boolean oracle `grader` on the formatted prompt. -/
def gradeHallucinations (grader : String → Bool) (s : CRAGState) :
    Except String String :=
  let formattedDocs := formatDocs s.documents
  let prompt := (gradeHallucinationsPrompt.replace "{documents}" formattedDocs).replace
    "{generation}" s.generation
  if grader prompt then .ok "supported"
  else if s.attempted_generations ≥ ATTEMPTED_GENERATION_MAX then
    .error "Too many attempted generations with hallucinations, giving up."
  else .ok "not supported"

/-- The memory-hil-rag state (src/rag-agents/memory-hil-rag.ts, lines 41-62):
the corrective-rag channels plus the `messages` history with its append
reducer. -/
structure MHRagState where
  question : String
  messages : List Message
  generation : String
  documents : List Document
  attempted_generations : Nat
  deriving DecidableEq, Repr

/-- A partial update of the memory-hil-rag state. -/
structure MHRagUpdate where
  question : Option String := none
  messages : Option (List Message) := none
  generation : Option String := none
  documents : Option (List Document) := none
  attempted_generations : Option Nat := none
  deriving DecidableEq, Repr

/-- Merge of a partial update into the memory-hil-rag state (`messages`
appends, everything else overwrites). -/
def applyMHRag (s : MHRagState) (u : MHRagUpdate) : MHRagState where
  question := match u.question with
    | some v => v
    | none => s.question
  messages := match u.messages with
    | some v => s.messages ++ v
    | none => s.messages
  generation := match u.generation with
    | some v => v
    | none => s.generation
  documents := match u.documents with
    | some v => v
    | none => s.documents
  attempted_generations := match u.attempted_generations with
    | some v => v
    | none => s.attempted_generations

/-- `RAG_PROMPT_WITH_CHAT_HISTORY` (src/rag-agents/memory-hil-rag.ts, lines
74-89). -/
def RAG_PROMPT_WITH_CHAT_HISTORY : String :=
  "You are an assistant for question-answering tasks. \nUse the following pieces of retrieved context to answer the latest question in the conversation. \nIf you don't know the answer, just say that you don't know. \nThe pre-existing conversation may provide important context to the question.\nUse three sentences maximum and keep the answer concise.\n\nExisting Conversation:\n{conversation}\n\nLatest Question:\n{question}\n\nAdditional Context from Documents:\n{context} \n\nAnswer:"

/-! ### The execution scheduler, modelled from the spec

The step loop, checkpointing and the interrupt/resume protocol are
implemented by the langgraph library, which is not among this repository's
sources; the definitions in this section are therefore modelled from spec
§4.4-§4.6 and marked as such. -/

/-- Modelled from the spec: the outcome of one node invocation (§4.4) — a
partial state update, or a suspension request carrying a payload (§4.5). -/
inductive NodeResult (υ : Type) where
  | update (u : υ)
  | suspend (payload : String)
  deriving DecidableEq, Repr

/-- Modelled from the spec: a compiled graph as the scheduler consumes it
(§3, §4.1): node functions (receiving the pending resume value, which a
node's suspension call returns on resume, §4.5), the reducer merge of an
update into state (§4.2), and routing — deterministic edge, conditional edge
through its label map, or terminal; an unmapped label is the fatal
`UnknownRouteError` (§4.4). -/
structure SchedGraph (σ υ ρ : Type) where
  invoke : String → σ → Option ρ → NodeResult υ
  applyUpdate : σ → υ → σ
  route : String → σ → Except String (Option String)

/-- Modelled from the spec: the outcome of a run (§4.4, §7).  `trace` lists
the invoked nodes in order; `completed` counts completed (non-suspending)
steps when the budget runs out. -/
inductive Outcome (σ : Type) where
  | final (s : σ) (trace : List String)
  | interrupted (payload : String) (s : σ) (node : String) (trace : List String)
  | recursionLimit (completed : Nat) (s : σ) (trace : List String)
  | failed (err : String) (s : σ) (trace : List String)
  deriving DecidableEq, Repr

/-- The nodes a run invoked, in order. -/
def Outcome.trace {σ : Type} : Outcome σ → List String
  | .final _ tr => tr
  | .interrupted _ _ _ tr => tr
  | .recursionLimit _ _ tr => tr
  | .failed _ _ tr => tr

/-- Modelled from the spec: the step loop of §4.4.  The remaining-step budget
is decremented exactly once per completed (non-suspending) step and checked
before invoking the next node; exhaustion fails with `RecursionLimitError`
(`Outcome.recursionLimit`).  A suspending node halts the loop without
consuming budget.  The resume value is consumed by the first invocation of a
resumed run only (§4.5). -/
def runLoop {σ υ ρ : Type} (g : SchedGraph σ υ ρ) :
    Nat → String → σ → Option ρ → Nat → List String → Outcome σ
  | 0, _, s, _, completed, tr => .recursionLimit completed s tr
  | b + 1, n, s, r, completed, tr =>
    match g.invoke n s r with
    | .suspend p => .interrupted p s n (tr ++ [n])
    | .update u =>
      let s' := g.applyUpdate s u
      match g.route n s' with
      | .error e => .failed e s' (tr ++ [n])
      | .ok none => .final s' (tr ++ [n])
      | .ok (some n') => runLoop g b n' s' none (completed + 1) (tr ++ [n])

/-- Modelled from the spec: a checkpoint (§3, §4.6) — state, continuation
node, and the pending interrupt payload when the session is suspended. -/
structure Checkpoint (σ : Type) where
  state : σ
  node : String
  pending : Option String
  deriving DecidableEq, Repr

/-- Modelled from the spec: `resume(session_id, resume_value)` (§4.5) against
the session's latest checkpoint.  A checkpoint without a pending interrupt is
`ResumeWithoutSuspensionError`; otherwise the engine re-invokes the
suspending node from its beginning, supplying the resume value as the result
of the suspension call, and continues the normal step loop. -/
def resume {σ υ ρ : Type} (g : SchedGraph σ υ ρ) (budget : Nat)
    (cp : Checkpoint σ) (v : ρ) : Except String (Outcome σ) :=
  match cp.pending with
  | none => .error "ResumeWithoutSuspensionError"
  | some _ => .ok (runLoop g budget cp.node cp.state (some v) 0 [])

/-- Modelled from the spec (§8): a graph with a single node `loop` and an
unconditional self-loop; its state counts the executed steps. -/
def selfLoopGraph : SchedGraph Nat Nat Unit where
  invoke := fun _ _ _ => .update 1
  applyUpdate := fun s u => s + u
  route := fun _ _ => .ok (some "loop")

/-! ### The hil-assistant graph as a scheduled graph -/

/-- The node dispatch of the hil-assistant graph (src/multi-agent/
hil-assistant.ts, lines 189-206): `verify_info`, `human_input` — whose
`interrupt` call (lines 170-174) suspends unless a resume value is supplied,
and otherwise returns `{messages: [resume_value]}` — and the `supervisor`
sub-workflow, abstracted as the oracle `sup`.  The resume value is the
message the source pushes into the history. -/
def hilInvoke (o : VerifyOracles) (sup : HILState → HILUpdate) :
    String → HILState → Option Message → NodeResult HILUpdate :=
  fun n s r =>
    if n = "verify_info" then .update (verifyInfo o s)
    else if n = "human_input" then
      match r with
      | none => .suspend humanInputPrompt
      | some v => .update { messages := some [v] }
    else if n = "supervisor" then .update (sup s)
    else .update {}

/-- The edges of the hil-assistant graph (lines 196-206):
`__start__ -> verify_info`; the conditional edge on `shouldInterrupt` with
label map `{continue: supervisor, interrupt: human_input}`;
`human_input -> verify_info`; `supervisor -> __end__`. -/
def hilRoute : String → HILState → Except String (Option String) :=
  fun n s =>
    if n = "verify_info" then
      if shouldInterrupt s = "continue" then .ok (some "supervisor")
      else if shouldInterrupt s = "interrupt" then .ok (some "human_input")
      else .error "UnknownRouteError"
    else if n = "human_input" then .ok (some "verify_info")
    else if n = "supervisor" then .ok none
    else .error "UnknownRouteError"

/-- The hil-assistant graph, assembled for the scheduler. -/
def hilGraph (o : VerifyOracles) (sup : HILState → HILUpdate) :
    SchedGraph HILState HILUpdate Message where
  invoke := hilInvoke o sup
  applyUpdate := applyHIL
  route := hilRoute

/-! ### The corrective-rag graph as a scheduled graph -/

/-- The LLM, retriever and grader capabilities of the corrective-rag graph. -/
structure CRAGOracles where
  retriever : String → List Document
  gradeDoc : String → Bool
  genLLM : String → String
  grader : String → Bool

/-- The node dispatch of the corrective-rag graph (src/unnamed/part_003,
lines 239-242). -/
def cragInvoke (o : CRAGOracles) :
    String → CRAGState → Option Unit → NodeResult CRAGUpdate :=
  fun n s _ =>
    if n = "retrieve_documents" then .update (cragRetrieveDocuments o.retriever s)
    else if n = "generate_response" then .update (cragGenerateResponse o.genLLM s)
    else if n = "grade_documents" then .update (cragGradeDocuments o.gradeDoc s)
    else .update {}

/-- The edges of the corrective-rag graph (src/unnamed/part_003, lines
243-261): `__start__ -> retrieve_documents -> grade_documents`; the
conditional edge on `decideToGenerate` with label map `{some relevant:
generate_response, none relevant: __end__}`; the conditional edge on
`gradeHallucinations` with label map `{supported: __end__, not supported:
generate_response}`, whose thrown error fails the run. -/
def cragRoute (o : CRAGOracles) :
    String → CRAGState → Except String (Option String) :=
  fun n s =>
    if n = "retrieve_documents" then .ok (some "grade_documents")
    else if n = "grade_documents" then
      if decideToGenerate s = "some relevant" then .ok (some "generate_response")
      else if decideToGenerate s = "none relevant" then .ok none
      else .error "UnknownRouteError"
    else if n = "generate_response" then
      match gradeHallucinations o.grader s with
      | .error e => .error e
      | .ok lbl =>
        if lbl = "supported" then .ok none
        else if lbl = "not supported" then .ok (some "generate_response")
        else .error "UnknownRouteError"
    else .error "UnknownRouteError"

/-- The corrective-rag graph, assembled for the scheduler. -/
def cragGraph (o : CRAGOracles) : SchedGraph CRAGState CRAGUpdate Unit where
  invoke := cragInvoke o
  applyUpdate := applyCRAG
  route := cragRoute o

/-! ### The interruptible nodes of memory-hil-rag -/

/-- `generateResponse` (src/rag-agents/memory-hil-rag.ts, lines 128-153): the
node calls `interrupt` first — a fresh invocation suspends with the question
to the human; on resume, the supplied additional context is concatenated to
the buffered conversation and the node returns the LLM generation together
with `attempted_generations + 1`.  `getBufferString` of the langchain
library is the oracle `bufferString`. -/
def mhGenerateResponse (bufferString : List Message → String)
    (genLLM : String → String) (s : MHRagState) (resumeValue : Option String) :
    NodeResult MHRagUpdate :=
  match resumeValue with
  | none => .suspend "Do you have anything else to add that you think is relevant?"
  | some additional_context =>
    let attemptedGenerations := s.attempted_generations
    let conversation := bufferString s.messages ++ additional_context
    let formattedDocs := formatDocs s.documents
    let ragPromptFormatted :=
      ((RAG_PROMPT_WITH_CHAT_HISTORY.replace "{context}" formattedDocs).replace
        "{conversation}" conversation).replace "{question}" s.question
    .update { generation := some (genLLM ragPromptFormatted)
              attempted_generations := some (attemptedGenerations + 1) }

/-- `gradeHallucinations` (src/rag-agents/memory-hil-rag.ts, lines 247-277):
textually the corrective-rag grader, over the memory-hil-rag state. -/
def mhGradeHallucinations (grader : String → Bool) (s : MHRagState) :
    Except String String :=
  let formattedDocs := formatDocs s.documents
  let prompt := (gradeHallucinationsPrompt.replace "{documents}" formattedDocs).replace
    "{generation}" s.generation
  if grader prompt then .ok "supported"
  else if s.attempted_generations ≥ ATTEMPTED_GENERATION_MAX then
    .error "Too many attempted generations with hallucinations, giving up."
  else .ok "not supported"

/-! ### Claim theorems -/

/-- C1: for message lists `L` and `R` whose messages all carry identities,
`addMessages` returns exactly the merge the spec describes: each message of
`R`, in order, replaces in place the element at its id's position in `L` when
that id occurs there, and is appended at the tail otherwise. -/
theorem addMessages_matches_spec_merge (fresh : Nat → Nat) (L R : List Message)
    (hL : ∀ m ∈ L, m.id ≠ none) (hR : ∀ m ∈ R, m.id ≠ none) :
    addMessages fresh L R = addMessagesSpec L R := by
  rw [addMessages_of_allSome fresh L R hL hR, addMessagesSpec_eq_mergeInto]

/-- Witness for C1, on the spec §8 example: merging `[{id: 1, "a"}]` with
`[{id: 1, "b"}, {id: 2, "c"}]` yields `[{id: 1, "b"}, {id: 2, "c"}]`. -/
theorem addMessages_matches_spec_merge_witness :
    addMessages (fun n => n) [⟨Role.human, some 1, "a"⟩]
        [⟨Role.ai, some 1, "b"⟩, ⟨Role.ai, some 2, "c"⟩]
      = addMessagesSpec [⟨Role.human, some 1, "a"⟩]
        [⟨Role.ai, some 1, "b"⟩, ⟨Role.ai, some 2, "c"⟩]
    ∧ addMessagesSpec [⟨Role.human, some 1, "a"⟩]
        [⟨Role.ai, some 1, "b"⟩, ⟨Role.ai, some 2, "c"⟩]
      = [⟨Role.ai, some 1, "b"⟩, ⟨Role.ai, some 2, "c"⟩] :=
  ⟨addMessages_matches_spec_merge (fun n => n) _ _ (by decide) (by decide), by decide⟩

/-- C4: merging two identity-less lists assigns a fresh id to every message —
all distinct, none missing — and returns `L`'s messages followed by `R`'s
with each list's internal order (contents and roles) preserved. -/
theorem addMessages_fresh_unique_append (fresh : Nat → Nat) (L R : List Message)
    (hfresh : Function.Injective fresh)
    (hL : ∀ m ∈ L, m.id = none) (hR : ∀ m ∈ R, m.id = none) :
    (addMessages fresh L R).map Message.content
        = L.map Message.content ++ R.map Message.content
    ∧ (addMessages fresh L R).map Message.role
        = L.map Message.role ++ R.map Message.role
    ∧ (idsOf (addMessages fresh L R)).Nodup
    ∧ ∀ m ∈ addMessages fresh L R, m.id ≠ none := by
  have heq := addMessages_of_allNone fresh L R hfresh hL hR
  have hLn := assignIds_allNone fresh L 0 hL
  have hRn := assignIds_allNone fresh R L.length hR
  have hids : idsOf (addMessages fresh L R)
      = (List.range' 0 L.length ++ List.range' L.length R.length).map
          (fun k => some (fresh k)) := by
    rw [heq, idsOf_append, hLn.2.2.1, hRn.2.2.1, List.map_append]
  have hr : List.range' 0 L.length ++ List.range' L.length R.length
      = List.range' 0 (R.length + L.length) := by
    have h := List.range'_append 0 L.length R.length 1
    simpa using h
  refine ⟨?_, ?_, ?_, ?_⟩
  · rw [heq, List.map_append, hLn.1, hRn.1]
  · rw [heq, List.map_append, hLn.2.1, hRn.2.1]
  · rw [hids, hr]
    refine List.Nodup.map ?_ (List.nodup_range' 0 (R.length + L.length))
    intro a b hab
    exact hfresh (Option.some.inj hab)
  · intro m hm
    have hmem : m.id ∈ idsOf (addMessages fresh L R) :=
      List.mem_map_of_mem Message.id hm
    rw [hids] at hmem
    obtain ⟨k, _, hk⟩ := List.mem_map.mp hmem
    rw [← hk]
    simp

/-- Witness for C4: two identity-less singletons are appended in order with
distinct fresh ids. -/
theorem addMessages_fresh_unique_append_witness :
    (addMessages (fun n => n + 100) [⟨Role.human, none, "hi"⟩]
        [⟨Role.ai, none, "yo"⟩]).map Message.content = ["hi", "yo"]
    ∧ (idsOf (addMessages (fun n => n + 100) [⟨Role.human, none, "hi"⟩]
        [⟨Role.ai, none, "yo"⟩])).Nodup := by
  have h := addMessages_fresh_unique_append (fun n => n + 100)
    [⟨Role.human, none, "hi"⟩] [⟨Role.ai, none, "yo"⟩]
    (fun a b hab => by simpa using hab) (by decide) (by decide)
  exact ⟨h.1, h.2.2.1⟩

/-- C5: the merge is idempotent for repeated delivery of the same identities:
replaying the incoming batch against the merged list changes nothing. -/
theorem addMessages_idempotent (fresh : Nat → Nat) (L R : List Message)
    (hL : ∀ m ∈ L, m.id ≠ none) (hR : ∀ m ∈ R, m.id ≠ none) :
    addMessages fresh (addMessages fresh L R) R = addMessages fresh L R := by
  have hM : ∀ m ∈ mergeInto L R, m.id ≠ none := by
    intro m hm hnone
    have hmem : m.id ∈ idsOf (mergeInto L R) := List.mem_map_of_mem Message.id hm
    rw [mergeInto_ids] at hmem
    rcases List.mem_append.mp hmem with hmem | hmem
    · obtain ⟨m', hm', he⟩ := List.mem_map.mp hmem
      exact hL m' hm' (by rw [he]; exact hnone)
    · obtain ⟨m', hm', he⟩ := List.mem_map.mp hmem
      exact hR m' ((appendedOf_mem L R m').mp hm').1 (by rw [he]; exact hnone)
  rw [addMessages_of_allSome fresh L R hL hR,
    addMessages_of_allSome fresh (mergeInto L R) R hM hR, mergeInto_idem]

/-- Witness for C5: replaying the batch of the C1 example converges. -/
theorem addMessages_idempotent_witness :
    addMessages (fun n => n)
        (addMessages (fun n => n) [⟨Role.human, some 1, "a"⟩]
          [⟨Role.ai, some 1, "b"⟩, ⟨Role.ai, some 2, "c"⟩])
        [⟨Role.ai, some 1, "b"⟩, ⟨Role.ai, some 2, "c"⟩]
      = addMessages (fun n => n) [⟨Role.human, some 1, "a"⟩]
          [⟨Role.ai, some 1, "b"⟩, ⟨Role.ai, some 2, "c"⟩] :=
  addMessages_idempotent (fun n => n) _ _ (by decide) (by decide)

/-- C2 (modelled from the spec): the remaining-step budget is decremented
exactly once per completed step and checked before the next invocation: the
unconditional self-loop with budget `b` performs exactly `b` completed steps
— each one invocation of the node — and then fails with
`RecursionLimitError`; with budget 3 it fails after exactly 3 completed
steps and never attempts a 4th invocation. -/
theorem selfLoop_budget_recursion_limit :
    (∀ (b s completed : Nat) (tr : List String),
      runLoop selfLoopGraph b "loop" s none completed tr
        = .recursionLimit (completed + b) (s + b) (tr ++ List.replicate b "loop"))
    ∧ runLoop selfLoopGraph 3 "loop" 0 none 0 []
        = .recursionLimit 3 3 ["loop", "loop", "loop"] := by
  have hgen : ∀ (b s completed : Nat) (tr : List String),
      runLoop selfLoopGraph b "loop" s none completed tr
        = .recursionLimit (completed + b) (s + b)
            (tr ++ List.replicate b "loop") := by
    intro b
    induction b with
    | zero =>
      intro s completed tr
      simp [runLoop]
    | succ b ih =>
      intro s completed tr
      have hstep : runLoop selfLoopGraph (b + 1) "loop" s none completed tr
          = runLoop selfLoopGraph b "loop" (s + 1) none (completed + 1)
              (tr ++ ["loop"]) := rfl
      rw [hstep, ih (s + 1) (completed + 1) (tr ++ ["loop"])]
      have h1 : completed + 1 + b = completed + (b + 1) := by omega
      have h2 : s + 1 + b = s + (b + 1) := by omega
      have h3 : (tr ++ ["loop"]) ++ List.replicate b "loop"
          = tr ++ List.replicate (b + 1) "loop" := by
        rw [List.append_assoc, List.replicate_succ]
        rfl
      rw [h1, h2, h3]
  exact ⟨hgen, by decide⟩

/-- C3 (modelled from the spec): resuming a session suspended at
`human_input` re-invokes exactly that node from its beginning — the resumed
step's trace is `["human_input"]`, no earlier node is re-run — the suspension
call returns the resume value, `humanInput` returns
`{messages: [resume_value]}`, and the loop continues along the
`human_input -> verify_info` edge with the history extended by the resume
value. -/
theorem resume_reinvokes_human_input (o : VerifyOracles)
    (sup : HILState → HILUpdate) (b : Nat) (s : HILState) (v : Message)
    (p : String) :
    resume (hilGraph o sup) (b + 1) ⟨s, "human_input", some p⟩ v
      = .ok (runLoop (hilGraph o sup) b "verify_info"
          { s with messages := s.messages ++ [v] } none 1 ["human_input"])
    ∧ hilInvoke o sup "human_input" s (some v)
      = .update { messages := some [v] }
    ∧ applyHIL s { messages := some [v] }
      = { s with messages := s.messages ++ [v] } :=
  ⟨rfl, rfl, rfl⟩

/-- C6: the standard reducers meet the spec equations: overwrite
(`customer_id`, `loaded_memory` in both hil-assistant and music-subagent
states) returns exactly the incoming value, and append (`messages`) returns
current ++ incoming, preserving arrival order. -/
theorem standard_reducers_spec :
    (∀ currentState updateValue : Option String,
      hilCustomerIdReducer currentState updateValue = updateValue)
    ∧ (∀ currentState updateValue : Option String,
      hilLoadedMemoryReducer currentState updateValue = updateValue)
    ∧ (∀ currentState updateValue : Option String,
      musicCustomerIdReducer currentState updateValue = updateValue)
    ∧ (∀ currentState updateValue : Option String,
      musicLoadedMemoryReducer currentState updateValue = updateValue)
    ∧ (∀ currentState updateValue : List Message,
      hilMessagesReducer (some currentState) updateValue
        = currentState ++ updateValue)
    ∧ (∀ currentState updateValue : List Message,
      musicMessagesReducer (some currentState) updateValue
        = currentState ++ updateValue) :=
  ⟨fun _ _ => rfl, fun _ _ => rfl, fun _ _ => rfl, fun _ _ => rfl,
    fun _ _ => rfl, fun _ _ => rfl⟩

/-- C7: a channel with no incoming update keeps its value:
`retrieveDocuments` touches only `documents`, so `question` and `generation`
are unchanged by its merge; `verifyInfo` on a state with a verified
`customer_id` returns the empty update, leaving every channel unchanged. -/
theorem untouched_channels_unchanged (retriever : String → List Document)
    (s : SimpleRAGState) (o : VerifyOracles) (t : HILState)
    (h : t.customer_id ≠ none) :
    (retrieveDocuments retriever s).question = none
    ∧ (retrieveDocuments retriever s).generation = none
    ∧ (applySimpleRAG s (retrieveDocuments retriever s)).question = s.question
    ∧ (applySimpleRAG s (retrieveDocuments retriever s)).generation = s.generation
    ∧ verifyInfo o t = {}
    ∧ applyHIL t {} = t := by
  cases hc : t.customer_id with
  | none => exact absurd hc h
  | some cid =>
    refine ⟨rfl, rfl, rfl, rfl, ?_, rfl⟩
    simp only [verifyInfo, hc]

/-- Witness for C7 at a concrete state, retriever and oracle set. -/
theorem untouched_channels_unchanged_witness :
    (applySimpleRAG ⟨"q", "g", []⟩
      (retrieveDocuments (fun _ => [⟨"d"⟩]) ⟨"q", "g", []⟩)).question = "q"
    ∧ verifyInfo ⟨fun _ => .error (), fun _ => ⟨Role.ai, none, "r"⟩, fun _ => none⟩
        ⟨[], some "1", none, none⟩ = {} := by
  have h := untouched_channels_unchanged (fun _ => [⟨"d"⟩]) ⟨"q", "g", []⟩
    ⟨fun _ => .error (), fun _ => ⟨Role.ai, none, "r"⟩, fun _ => none⟩
    ⟨[], some "1", none, none⟩ (by decide)
  exact ⟨h.2.2.1, h.2.2.2.2.1⟩

/-- C8: an absent prior profile is tolerated as an empty baseline:
`loadMemory` returns `{loaded_memory: ""}`, and `createOrUpdateMemory`
formats the missing profile as the empty string in its prompt, still stores
the LLM's updated profile under the customer's namespace, and reports it on
`loaded_memory`. -/
theorem absent_profile_tolerated (store : MemStore) (s : HILState) (uid : String)
    (profileLLM : String → UserProfile)
    (hcid : s.customer_id = some uid)
    (habsent : store [uid, "memory_profile"] "user_memory" = none) :
    loadMemory store s = { loaded_memory := some (some "") }
    ∧ (createOrUpdateMemory profileLLM store s).1 [uid, "memory_profile"]
        "user_memory"
      = some (profileLLM ((createMemoryPrompt.replace "{conversation}"
          (conversationOf s.messages)).replace "{memory_profile}" ""))
    ∧ (createOrUpdateMemory profileLLM store s).2
      = { loaded_memory := some (some (formatUserMemory (some (profileLLM
          ((createMemoryPrompt.replace "{conversation}"
            (conversationOf s.messages)).replace "{memory_profile}" ""))))) } := by
  refine ⟨?_, ?_, ?_⟩
  · simp only [loadMemory, hcid, habsent]
    rfl
  · simp only [createOrUpdateMemory, hcid, habsent]
    simp [memPut, formatUserMemory]
  · simp only [createOrUpdateMemory, hcid, habsent]
    rfl

/-- Witness for C8 on an empty store. -/
theorem absent_profile_tolerated_witness :
    loadMemory (fun _ _ => none) ⟨[], some "1", none, none⟩
      = { loaded_memory := some (some "") }
    ∧ (createOrUpdateMemory (fun _ => ⟨"1", ["jazz"]⟩) (fun _ _ => none)
        ⟨[], some "1", none, none⟩).1 ["1", "memory_profile"] "user_memory"
      = some ⟨"1", ["jazz"]⟩ := by
  have h := absent_profile_tolerated (fun _ _ => none) ⟨[], some "1", none, none⟩
    "1" (fun _ => ⟨"1", ["jazz"]⟩) rfl rfl
  exact ⟨h.1, h.2.1⟩

/-- C10: `getCustomerIdFromIdentifier` accepts a (non-empty) all-digit
identifier as the verified customer id, unchanged and with no database query
issued; an identifier that is not all digits, does not start with `+` and
contains no `@` resolves to `null`, also without a query. -/
theorem customer_id_identifier_resolution (db : String → Option (List Nat))
    (identifier : String) :
    (identifier.data.isEmpty = false → identifier.data.all Char.isDigit = true →
      getCustomerIdFromIdentifier db identifier = (some identifier, []))
    ∧ (identifier.data.all Char.isDigit = false →
      (identifier.data.head? == some '+') = false →
      identifier.data.contains '@' = false →
      getCustomerIdFromIdentifier db identifier = (none, [])) := by
  constructor
  · intro h1 h2
    simp [getCustomerIdFromIdentifier, h1, h2]
  · intro h1 h2 h3
    have h3' : '@' ∉ identifier.data := by simpa using h3
    simp [getCustomerIdFromIdentifier, h1, h2, h3, h3']

/-- Witness for C10 at `"42"` and `"not-a-number"`. -/
theorem customer_id_identifier_resolution_witness :
    getCustomerIdFromIdentifier (fun _ => none) "42" = (some "42", [])
    ∧ getCustomerIdFromIdentifier (fun _ => none) "not-a-number" = (none, []) :=
  ⟨(customer_id_identifier_resolution (fun _ => none) "42").1
      (by decide) (by decide),
   (customer_id_identifier_resolution (fun _ => none) "not-a-number").2
      (by decide) (by decide) (by decide)⟩

/-! ### The regeneration loop bound (C9) -/

theorem runLoop_succ {σ υ ρ : Type} (g : SchedGraph σ υ ρ) (b : Nat) (n : String)
    (s : σ) (r : Option ρ) (completed : Nat) (tr : List String) :
    runLoop g (b + 1) n s r completed tr
    = match g.invoke n s r with
      | .suspend p => .interrupted p s n (tr ++ [n])
      | .update u =>
        match g.route n (g.applyUpdate s u) with
        | .error e => .failed e (g.applyUpdate s u) (tr ++ [n])
        | .ok none => .final (g.applyUpdate s u) (tr ++ [n])
        | .ok (some n') =>
          runLoop g b n' (g.applyUpdate s u) none (completed + 1) (tr ++ [n]) := rfl

theorem gradeHallucinations_labels (grader : String → Bool) (s : CRAGState)
    (lbl : String) (h : gradeHallucinations grader s = .ok lbl) :
    lbl = "supported" ∨ (lbl = "not supported" ∧ s.attempted_generations < 3) := by
  simp only [gradeHallucinations, ATTEMPTED_GENERATION_MAX] at h
  split at h
  · left
    injection h with h
    exact h.symm
  · split at h
    · exact absurd h (by simp)
    next hlt =>
      right
      refine ⟨?_, by omega⟩
      injection h with h
      exact h.symm


theorem cragRun_genCount_le (o : CRAGOracles) :
    ∀ (b : Nat) (n : String) (s : CRAGState) (completed : Nat) (tr : List String),
      ((runLoop (cragGraph o) b n s none completed tr).trace).count
          "generate_response"
        ≤ tr.count "generate_response" + max (3 - s.attempted_generations) 1 := by
  intro b
  induction b with
  | zero =>
    intro n s completed tr
    show tr.count "generate_response" ≤ _
    have hmax := Nat.le_max_right (3 - s.attempted_generations) 1
    omega
  | succ b ih =>
    intro n s completed tr
    have hmax := Nat.le_max_right (3 - s.attempted_generations) 1
    have hg1 : (cragGraph o).invoke = cragInvoke o := rfl
    have hg2 : (cragGraph o).route = cragRoute o := rfl
    have hg3 : (cragGraph o).applyUpdate = applyCRAG := rfl
    by_cases hn1 : n = "retrieve_documents"
    · subst hn1
      have hstep : runLoop (cragGraph o) (b + 1) "retrieve_documents" s none
            completed tr
          = runLoop (cragGraph o) b "grade_documents"
              (applyCRAG s (cragRetrieveDocuments o.retriever s)) none
              (completed + 1) (tr ++ ["retrieve_documents"]) := rfl
      rw [hstep]
      have h := ih "grade_documents"
        (applyCRAG s (cragRetrieveDocuments o.retriever s)) (completed + 1)
        (tr ++ ["retrieve_documents"])
      have hcnt : List.count "generate_response" (tr ++ ["retrieve_documents"])
          = List.count "generate_response" tr := by
        rw [List.count_append]
        have hz : List.count "generate_response" ["retrieve_documents"] = 0 := by
          decide
        rw [hz]
        omega
      have hatt : (applyCRAG s (cragRetrieveDocuments o.retriever s)).attempted_generations
          = s.attempted_generations := rfl
      rw [hcnt, hatt] at h
      exact h
    · by_cases hn2 : n = "grade_documents"
      · subst hn2
        have hcnt : List.count "generate_response" (tr ++ ["grade_documents"])
            = List.count "generate_response" tr := by
          rw [List.count_append]
          have hz : List.count "generate_response" ["grade_documents"] = 0 := by
            decide
          rw [hz]
          omega
        have hinv : cragInvoke o "grade_documents" s none
            = NodeResult.update (cragGradeDocuments o.gradeDoc s) := rfl
        by_cases hz : (applyCRAG s (cragGradeDocuments o.gradeDoc s)).documents.length = 0
        · have hd : decideToGenerate (applyCRAG s (cragGradeDocuments o.gradeDoc s))
              = "none relevant" := by
            show (if (applyCRAG s (cragGradeDocuments o.gradeDoc s)).documents.length = 0
              then "none relevant" else "some relevant") = _
            rw [if_pos hz]
          have hroute : cragRoute o "grade_documents"
              (applyCRAG s (cragGradeDocuments o.gradeDoc s)) = Except.ok none := by
            show (if decideToGenerate (applyCRAG s (cragGradeDocuments o.gradeDoc s))
                  = "some relevant"
                then (Except.ok (some "generate_response") : Except String (Option String))
                else if decideToGenerate (applyCRAG s (cragGradeDocuments o.gradeDoc s))
                  = "none relevant"
                then Except.ok none
                else Except.error "UnknownRouteError") = Except.ok none
            rw [hd]
            rfl
          rw [runLoop_succ]
          simp only [hg1, hg2, hg3, hinv, hroute]
          show List.count "generate_response" (tr ++ ["grade_documents"])
            ≤ List.count "generate_response" tr + max (3 - s.attempted_generations) 1
          rw [hcnt]
          omega
        · have hd : decideToGenerate (applyCRAG s (cragGradeDocuments o.gradeDoc s))
              = "some relevant" := by
            show (if (applyCRAG s (cragGradeDocuments o.gradeDoc s)).documents.length = 0
              then "none relevant" else "some relevant") = _
            rw [if_neg hz]
          have hroute : cragRoute o "grade_documents"
              (applyCRAG s (cragGradeDocuments o.gradeDoc s))
              = Except.ok (some "generate_response") := by
            show (if decideToGenerate (applyCRAG s (cragGradeDocuments o.gradeDoc s))
                  = "some relevant"
                then (Except.ok (some "generate_response") : Except String (Option String))
                else if decideToGenerate (applyCRAG s (cragGradeDocuments o.gradeDoc s))
                  = "none relevant"
                then Except.ok none
                else Except.error "UnknownRouteError")
              = Except.ok (some "generate_response")
            rw [hd]
            rfl
          rw [runLoop_succ]
          simp only [hg1, hg2, hg3, hinv, hroute]
          have h := ih "generate_response"
            (applyCRAG s (cragGradeDocuments o.gradeDoc s)) (completed + 1)
            (tr ++ ["grade_documents"])
          have hatt : (applyCRAG s (cragGradeDocuments o.gradeDoc s)).attempted_generations
              = s.attempted_generations := rfl
          rw [hcnt, hatt] at h
          exact h
      · by_cases hn3 : n = "generate_response"
        · subst hn3
          have hcnt : List.count "generate_response" (tr ++ ["generate_response"])
              = List.count "generate_response" tr + 1 := by
            rw [List.count_append]
            have ho : List.count "generate_response" ["generate_response"] = 1 := by
              decide
            rw [ho]
          have hatt : (applyCRAG s (cragGenerateResponse o.genLLM s)).attempted_generations
              = s.attempted_generations + 1 := rfl
          have hinv : cragInvoke o "generate_response" s none
              = NodeResult.update (cragGenerateResponse o.genLLM s) := rfl
          have hroute : cragRoute o "generate_response"
              (applyCRAG s (cragGenerateResponse o.genLLM s))
              = (match gradeHallucinations o.grader
                  (applyCRAG s (cragGenerateResponse o.genLLM s)) with
                | Except.error e => Except.error e
                | Except.ok lbl =>
                  if lbl = "supported" then Except.ok none
                  else if lbl = "not supported" then
                    Except.ok (some "generate_response")
                  else Except.error "UnknownRouteError") := rfl
          rw [runLoop_succ]
          simp only [hg1, hg2, hg3, hinv, hroute]
          cases hgh : gradeHallucinations o.grader
              (applyCRAG s (cragGenerateResponse o.genLLM s)) with
          | error e =>
            show List.count "generate_response" (tr ++ ["generate_response"])
              ≤ List.count "generate_response" tr + max (3 - s.attempted_generations) 1
            rw [hcnt]
            omega
          | ok lbl =>
            rcases gradeHallucinations_labels o.grader _ lbl hgh with hs | ⟨hs, hlt⟩
            · subst hs
              show List.count "generate_response" (tr ++ ["generate_response"])
                ≤ List.count "generate_response" tr + max (3 - s.attempted_generations) 1
              rw [hcnt]
              omega
            · subst hs
              show List.count "generate_response"
                  ((runLoop (cragGraph o) b "generate_response"
                    (applyCRAG s (cragGenerateResponse o.genLLM s)) none
                    (completed + 1) (tr ++ ["generate_response"])).trace)
                ≤ List.count "generate_response" tr + max (3 - s.attempted_generations) 1
              have h := ih "generate_response"
                (applyCRAG s (cragGenerateResponse o.genLLM s)) (completed + 1)
                (tr ++ ["generate_response"])
              rw [hcnt, hatt] at h
              rw [hatt] at hlt
              have hm1 : max (3 - (s.attempted_generations + 1)) 1
                  = 3 - (s.attempted_generations + 1) := by omega
              have hm2 : max (3 - s.attempted_generations) 1
                  = 3 - s.attempted_generations := by omega
              rw [hm1] at h
              rw [hm2]
              omega
        · have hinv : cragInvoke o n s none = NodeResult.update {} := by
            simp only [cragInvoke, if_neg hn1, if_neg hn3, if_neg hn2]
          have hroute : ∀ s0 : CRAGState,
              cragRoute o n s0 = Except.error "UnknownRouteError" := by
            intro s0
            simp only [cragRoute, if_neg hn1, if_neg hn2, if_neg hn3]
          rw [runLoop_succ]
          simp only [hg1, hg2, hg3, hinv, hroute]
          show List.count "generate_response" (tr ++ [n])
            ≤ List.count "generate_response" tr + max (3 - s.attempted_generations) 1
          rw [List.count_append]
          have hz : List.count "generate_response" [n] = 0 := by
            simp [List.count_singleton, hn3]
          rw [hz]
          omega

/-- C9: every completed execution of `generateResponse` increments
`attempted_generations` by exactly one — in corrective-rag directly, and in
memory-hil-rag after the node's leading `interrupt` (which suspends a fresh
invocation); `gradeHallucinations` never returns `not supported` once
`attempted_generations` has reached 3 (it throws instead); consequently a
corrective-rag run started with `attempted_generations = 0` executes
`generate_response` at most 3 times, whatever the oracles decide. -/
theorem regeneration_bounded :
    (∀ (genLLM : String → String) (s : CRAGState),
      (applyCRAG s (cragGenerateResponse genLLM s)).attempted_generations
        = s.attempted_generations + 1)
    ∧ (∀ (bufferString : List Message → String) (genLLM : String → String)
        (s : MHRagState) (ctx : String),
        ∃ u, mhGenerateResponse bufferString genLLM s (some ctx) = .update u
          ∧ (applyMHRag s u).attempted_generations = s.attempted_generations + 1)
    ∧ (∀ (bufferString : List Message → String) (genLLM : String → String)
        (s : MHRagState),
        mhGenerateResponse bufferString genLLM s none
          = .suspend "Do you have anything else to add that you think is relevant?")
    ∧ (∀ (grader : String → Bool) (s : CRAGState),
        3 ≤ s.attempted_generations →
        gradeHallucinations grader s ≠ .ok "not supported")
    ∧ (∀ (grader : String → Bool) (s : MHRagState),
        3 ≤ s.attempted_generations →
        mhGradeHallucinations grader s ≠ .ok "not supported")
    ∧ (∀ (o : CRAGOracles) (b : Nat) (s : CRAGState),
        s.attempted_generations = 0 →
        ((runLoop (cragGraph o) b "retrieve_documents" s none 0 []).trace).count
          "generate_response" ≤ 3) := by
  refine ⟨fun _ _ => rfl, ?_, fun _ _ _ => rfl, ?_, ?_, ?_⟩
  · intro bufferString genLLM s ctx
    exact ⟨_, rfl, rfl⟩
  · intro grader s h3 hcontra
    simp only [gradeHallucinations, ATTEMPTED_GENERATION_MAX] at hcontra
    by_cases hg : grader ((gradeHallucinationsPrompt.replace "{documents}"
        (formatDocs s.documents)).replace "{generation}" s.generation) = true
    · rw [if_pos hg] at hcontra
      simp at hcontra
    · rw [if_neg hg, if_pos h3] at hcontra
      simp at hcontra
  · intro grader s h3 hcontra
    simp only [mhGradeHallucinations, ATTEMPTED_GENERATION_MAX] at hcontra
    by_cases hg : grader ((gradeHallucinationsPrompt.replace "{documents}"
        (formatDocs s.documents)).replace "{generation}" s.generation) = true
    · rw [if_pos hg] at hcontra
      simp at hcontra
    · rw [if_neg hg, if_pos h3] at hcontra
      simp at hcontra
  · intro o b s h0
    have h := cragRun_genCount_le o b "retrieve_documents" s 0 []
    rw [h0] at h
    have hnil : List.count "generate_response" ([] : List String) = 0 := rfl
    rw [hnil] at h
    have hm : max (3 - 0) 1 = 3 := by omega
    rw [hm] at h
    omega

/-- Witness for C9: with a grader that always rejects, the loop performs
exactly 3 generations and gives up; the bound holds. -/
theorem regeneration_bounded_witness :
    ((runLoop (cragGraph ⟨fun _ => [⟨"d"⟩], fun _ => true, fun _ => "g",
        fun _ => false⟩) 10 "retrieve_documents" ⟨"q", "", [], 0⟩ none 0
        []).trace).count "generate_response" ≤ 3 :=
  regeneration_bounded.2.2.2.2.2
    ⟨fun _ => [⟨"d"⟩], fun _ => true, fun _ => "g", fun _ => false⟩ 10
    ⟨"q", "", [], 0⟩ rfl
